import Mathlib

/-!
Verification of the selector / redaction module (src/redaction.rs).

The module compiles a textual path selector into a list of alternative
path patterns (lists of segments) and uses it to match concrete paths and
to rewrite matched subtrees of a generic value tree.

Modelling conventions:
* the value tree type Content and its two read capabilities as_str and
  as_u64 belong to an external collaborator module that is not part of the
  sources; they are modelled from the specification (each such definition
  carries a doc comment starting with Modelled from the spec);
* a fatal abort (the unimplemented-range case of is_match) is modelled by
  the Option monad: a result none means the operation aborts instead of
  returning; some x means it returns x normally;
* the mutable path stack (a Vec in the original, pushed before descending
  into a child and popped afterwards) is modelled by explicit state
  passing: redact_impl takes the incoming path and returns, together with
  the rewritten value, the state of the path stack when it returns.
-/

abbrev Str : Type := String

/-- Modelled from the spec: the external value-tree collaborator Content.
Containers are an ordered key-value mapping, an ordered sequence, a
fixed-arity tuple, a named tuple struct, a named tuple variant, a named
record (field name to value), and a named record variant; leaves are
opaque scalars (here: booleans, unsigned integers, text, and a unit
leaf standing for any other scalar). -/
inductive Content where
  | Bool (b : Bool)
  | U64 (n : Nat)
  | String (s : Str)
  | None
  | Map (entries : List (Content × Content))
  | Seq (items : List Content)
  | Tuple (items : List Content)
  | TupleStruct (name : Str) (items : List Content)
  | TupleVariant (name : Str) (variantIndex : Nat) (variant : Str) (items : List Content)
  | Struct (name : Str) (fields : List (Str × Content))
  | StructVariant (name : Str) (variantIndex : Nat) (variant : Str) (fields : List (Str × Content))

/-- Modelled from the spec: the text view of a value (required capability
as_str); a text leaf renders as its text, everything else has none. -/
def Content.as_str : Content → Option Str
  | .String s => some s
  | _ => none

/-- Modelled from the spec: the unsigned-integer view of a value (required
capability as_u64); an unsigned-integer leaf renders as its number,
everything else has none. -/
def Content.as_u64 : Content → Option Nat
  | .U64 n => some n
  | _ => none

/-- One step of a path pattern (enum Segment in redaction.rs). -/
inductive Segment where
  | Wildcard
  | Key (k : Str)
  | Index (i : Nat)
  | Range (lo : Option Nat) (hi : Option Nat)

/-- A compiled selector: an ordered collection of alternative patterns,
each an ordered list of segments (struct Selector in redaction.rs). -/
structure Selector where
  selectors : List (List Segment)

/-- Comparison of one pattern segment against one path element, as written
in the inner loop of Selector::is_match.  none models the fatal abort on
the unimplemented Range segment. -/
def segMatch : Segment → Content → Option Bool
  | .Wildcard, _ => some true
  | .Key k, element => some (element.as_str == some k)
  | .Index i, element => some (element.as_u64 == some i)
  | .Range _ _, _ => none

/-- The inner loop of Selector::is_match over the zipped pattern/path
pairs: abort propagates, the first mismatching position returns false for
the whole call, and an exhausted loop falls through. -/
def matchZip : List (Segment × Content) → Option Bool
  | [] => some true
  | (seg, element) :: rest =>
    match segMatch seg element with
    | none => none
    | some false => some false
    | some true => matchZip rest

/-- The outer loop of Selector::is_match over the stored alternatives: an
alternative whose length differs from the path's returns false for the
whole call, a mismatching position returns false for the whole call, and
only after every alternative has been walked completely does the call
return true. -/
def matchAlts (path : List Content) : List (List Segment) → Option Bool
  | [] => some true
  | alt :: rest =>
    if alt.length ≠ path.length then some false
    else
      match matchZip (alt.zip path) with
      | none => none
      | some false => some false
      | some true => matchAlts path rest

/-- Selector::is_match, with none modelling the fatal abort reached on a
Range segment. -/
def Selector.is_match (sel : Selector) (path : List Content) : Option Bool :=
  matchAlts path sel.selectors

/-- The escape-decoding loop of the quoted-string case of Selector::parse:
a left-to-right scan with a was-backslash flag; a character equal to a
backslash while the flag is down is dropped and raises the flag, any other
character (also a backslash while the flag is up) is kept and lowers the
flag. -/
def decodeEscapedChars : List Char → Bool → List Char
  | [], _ => []
  | c :: rest, wasBackslash =>
    if c == '\\' && !wasBackslash then decodeEscapedChars rest true
    else c :: decodeEscapedChars rest false

/-- The quoted-string subscript case of Selector::parse: strip the
surrounding quotes, and if the remaining text holds a backslash anywhere
run the escape-decoding loop over it (the owned branch of the Cow),
otherwise keep it verbatim (the borrowed branch). -/
def subscriptStringKey (sq : Str) : Segment :=
  let s := (sq.drop 1).dropRight 1
  Segment.Key (if s.toList.any (· == '\\') then ⟨decodeEscapedChars s.toList false⟩ else s)

/-- The bare-key case of Selector::parse: the matched text minus its
leading dot byte becomes the key text. -/
def compileKey (matchedText : Str) : Segment :=
  Segment.Key (matchedText.drop 1)

/-- Modelled from the spec: the grammar (select_grammar.pest, not under
the sources) parses the selector text .foo as one alternative made of a
single key segment whose matched text is .foo; the pattern compiler turns
it into a selector via compileKey. -/
def dotFooSelector : Selector :=
  ⟨[[compileKey ".foo"]]⟩

mutual

/-- Selector::redact_impl.  The incoming path is the state of the path
stack at the call; the result pairs the rewritten value with the state of
the path stack at return.  none models the abort propagating out of
is_match. -/
def Selector.redact_impl (sel : Selector) (value : Content) (redaction : Content)
    (path : List Content) : Option (Content × List Content) :=
  match sel.is_match path with
  | none => none
  | some true => some (redaction, path)
  | some false =>
    match value with
    | .Map entries =>
      match redactEntries sel redaction entries path with
      | none => none
      | some (entries2, path2) => some (.Map entries2, path2)
    | .Seq items =>
      match redactItems sel redaction items path 0 with
      | none => none
      | some (items2, path2) => some (.Seq items2, path2)
    | .Tuple items =>
      match redactItems sel redaction items path 0 with
      | none => none
      | some (items2, path2) => some (.Tuple items2, path2)
    | .TupleStruct name items =>
      match redactItems sel redaction items path 0 with
      | none => none
      | some (items2, path2) => some (.TupleStruct name items2, path2)
    | .TupleVariant name variantIndex variant items =>
      match redactItems sel redaction items path 0 with
      | none => none
      | some (items2, path2) => some (.TupleVariant name variantIndex variant items2, path2)
    | .Struct name fields =>
      match redactFields sel redaction fields path with
      | none => none
      | some (fields2, path2) => some (.Struct name fields2, path2)
    | .StructVariant name variantIndex variant fields =>
      match redactFields sel redaction fields path with
      | none => none
      | some (fields2, path2) => some (.StructVariant name variantIndex variant fields2, path2)
    | other => some (other, path)

/-- The map arm of Selector::redact_impl: for each entry, push a clone of
the key, rewrite the child, pop, and rebuild the entry list in order. -/
def redactEntries (sel : Selector) (redaction : Content) :
    List (Content × Content) → List Content → Option (List (Content × Content) × List Content)
  | [], path => some ([], path)
  | (key, value) :: rest, path =>
    match sel.redact_impl value redaction (path ++ [key]) with
    | none => none
    | some (newValue, path2) =>
      match redactEntries sel redaction rest path2.dropLast with
      | none => none
      | some (rest2, path3) => some ((key, newValue) :: rest2, path3)

/-- The positional arms of Selector::redact_impl (sequences, tuples, tuple
structs, tuple variants): for the child at position idx, push the index as
an unsigned-integer element, rewrite the child, pop, and rebuild the item
list in order. -/
def redactItems (sel : Selector) (redaction : Content) :
    List Content → List Content → Nat → Option (List Content × List Content)
  | [], path, _ => some ([], path)
  | value :: rest, path, idx =>
    match sel.redact_impl value redaction (path ++ [Content.U64 idx]) with
    | none => none
    | some (newValue, path2) =>
      match redactItems sel redaction rest path2.dropLast (idx + 1) with
      | none => none
      | some (rest2, path3) => some (newValue :: rest2, path3)

/-- The named-field arms of Selector::redact_impl (structs and struct
variants): for each field, push the field name as a text element, rewrite
the child, pop, and rebuild the field list in order. -/
def redactFields (sel : Selector) (redaction : Content) :
    List (Str × Content) → List Content → Option (List (Str × Content) × List Content)
  | [], path => some ([], path)
  | (key, value) :: rest, path =>
    match sel.redact_impl value redaction (path ++ [Content.String key]) with
    | none => none
    | some (newValue, path2) =>
      match redactFields sel redaction rest path2.dropLast with
      | none => none
      | some (rest2, path3) => some ((key, newValue) :: rest2, path3)

end

/-- Selector::redact: run the worker on a freshly created empty path stack
and keep the rewritten value. -/
def Selector.redact (sel : Selector) (value : Content) (redaction : Content) : Option Content :=
  (sel.redact_impl value redaction []).map Prod.fst

/-- Whether a segment is the (unimplemented) range form. -/
def Segment.isRange : Segment → Bool
  | .Range _ _ => true
  | _ => false

/-- A selector none of whose alternatives holds a range segment. -/
def Selector.hasNoRange (sel : Selector) : Bool :=
  sel.selectors.all fun alt => alt.all fun seg => !seg.isRange

/-- One position of the success notion the specification states for an
alternative: a wildcard always matches, a key matches when the element's
text view equals it, an index matches when the element's unsigned-integer
view equals it, and a range never counts as a success. -/
def segMatchSpec : Segment → Content → Bool
  | .Wildcard, _ => true
  | .Key k, element => element.as_str == some k
  | .Index i, element => element.as_u64 == some i
  | .Range _ _, _ => false

/-- The success notion the specification states for one alternative: its
length equals the path's length and every position matches. -/
def altSucceeds (alt : List Segment) (path : List Content) : Bool :=
  (alt.length == path.length) && (alt.zip path).all fun p => segMatchSpec p.1 p.2

/-- The head-level shape of a value: which container kind it is, its name
and variant metadata, its arity, and (for keyed containers) its keys in
enumeration order; every scalar collapses to leaf. -/
inductive HeadShape where
  | leaf
  | map (keys : List Content)
  | seq (arity : Nat)
  | tuple (arity : Nat)
  | tupleStruct (name : Str) (arity : Nat)
  | tupleVariant (name : Str) (variantIndex : Nat) (variant : Str) (arity : Nat)
  | struct (name : Str) (keys : List Str)
  | structVariant (name : Str) (variantIndex : Nat) (variant : Str) (keys : List Str)

/-- The head-level shape of a value. -/
def Content.headShape : Content → HeadShape
  | .Map entries => .map (entries.map Prod.fst)
  | .Seq items => .seq items.length
  | .Tuple items => .tuple items.length
  | .TupleStruct name items => .tupleStruct name items.length
  | .TupleVariant name variantIndex variant items =>
      .tupleVariant name variantIndex variant items.length
  | .Struct name fields => .struct name (fields.map Prod.fst)
  | .StructVariant name variantIndex variant fields =>
      .structVariant name variantIndex variant (fields.map Prod.fst)
  | _ => .leaf

/-! ### Lemmas about the matcher -/

theorem segMatch_isSome {seg : Segment} (h : seg.isRange = false) (element : Content) :
    (segMatch seg element).isSome := by
  cases seg <;> simp_all [Segment.isRange, segMatch]

theorem matchZip_isSome {l : List (Segment × Content)}
    (h : ∀ p ∈ l, p.1.isRange = false) : (matchZip l).isSome := by
  induction l with
  | nil => simp [matchZip]
  | cons p rest ih =>
    obtain ⟨seg, element⟩ := p
    have hseg : seg.isRange = false := h (seg, element) (List.mem_cons_self _ _)
    cases hm : segMatch seg element with
    | none => exact absurd (segMatch_isSome hseg element) (by simp [hm])
    | some b =>
      cases b with
      | false => simp [matchZip, hm]
      | true =>
        simpa [matchZip, hm] using ih fun q hq => h q (List.mem_cons_of_mem _ hq)

theorem matchAlts_isSome {alts : List (List Segment)} (path : List Content)
    (h : ∀ alt ∈ alts, ∀ seg ∈ alt, seg.isRange = false) :
    (matchAlts path alts).isSome := by
  induction alts with
  | nil => simp [matchAlts]
  | cons alt rest ih =>
    by_cases hl : alt.length = path.length
    · have hz : (matchZip (alt.zip path)).isSome := by
        refine matchZip_isSome fun p hp => ?_
        exact h alt (List.mem_cons_self _ _) p.1 (List.of_mem_zip hp).1
      cases hm : matchZip (alt.zip path) with
      | none => exact absurd hz (by simp [hm])
      | some b =>
        cases b with
        | false => simp [matchAlts, hl, hm]
        | true =>
          simpa [matchAlts, hl, hm] using
            ih fun a ha => h a (List.mem_cons_of_mem _ ha)
    · simp [matchAlts, hl]

theorem is_match_isSome {sel : Selector} (h : sel.hasNoRange = true) (path : List Content) :
    (sel.is_match path).isSome := by
  refine matchAlts_isSome path fun alt ha seg hs => ?_
  simp only [Selector.hasNoRange, List.all_eq_true] at h
  simpa using h alt ha seg hs

theorem segMatch_true_iff (seg : Segment) (element : Content) :
    segMatch seg element = some true ↔ segMatchSpec seg element = true := by
  cases seg <;> simp [segMatch, segMatchSpec]

theorem matchZip_true_iff (l : List (Segment × Content)) :
    matchZip l = some true ↔ ∀ p ∈ l, segMatchSpec p.1 p.2 = true := by
  induction l with
  | nil => simp [matchZip]
  | cons p rest ih =>
    obtain ⟨seg, element⟩ := p
    cases hm : segMatch seg element with
    | none =>
      have : ¬segMatchSpec seg element = true := by
        rw [← segMatch_true_iff, hm]; simp
      simp [matchZip, hm, this]
    | some b =>
      cases b with
      | false =>
        have : ¬segMatchSpec seg element = true := by
          rw [← segMatch_true_iff, hm]; simp
        simp [matchZip, hm, this]
      | true =>
        have hspec : segMatchSpec seg element = true := (segMatch_true_iff _ _).1 hm
        simp [matchZip, hm, ih, hspec]

theorem matchAlts_true_iff (path : List Content) (alts : List (List Segment)) :
    matchAlts path alts = some true ↔ ∀ alt ∈ alts, altSucceeds alt path = true := by
  induction alts with
  | nil => simp [matchAlts]
  | cons alt rest ih =>
    by_cases hl : alt.length = path.length
    · cases hm : matchZip (alt.zip path) with
      | none =>
        have : ¬altSucceeds alt path = true := by
          simp only [altSucceeds, Bool.and_eq_true, beq_iff_eq, List.all_eq_true]
          rintro ⟨-, hall⟩
          have : matchZip (alt.zip path) = some true := by
            rw [matchZip_true_iff]; exact fun p hp => hall p hp
          simp [hm] at this
        simp [matchAlts, hl, hm, this]
      | some b =>
        cases b with
        | false =>
          have : ¬altSucceeds alt path = true := by
            simp only [altSucceeds, Bool.and_eq_true, beq_iff_eq, List.all_eq_true]
            rintro ⟨-, hall⟩
            have : matchZip (alt.zip path) = some true := by
              rw [matchZip_true_iff]; exact fun p hp => hall p hp
            simp [hm] at this
          simp [matchAlts, hl, hm, this]
        | true =>
          have hsucc : altSucceeds alt path = true := by
            simp only [altSucceeds, Bool.and_eq_true, beq_iff_eq, List.all_eq_true]
            exact ⟨hl, fun p hp => (matchZip_true_iff _).1 hm p hp⟩
          simp [matchAlts, hl, hm, ih, hsucc]
    · have : ¬altSucceeds alt path = true := by
        simp [altSucceeds, hl]
      simp [matchAlts, hl, this]

theorem is_match_true_iff (sel : Selector) (path : List Content) :
    sel.is_match path = some true ↔ ∀ alt ∈ sel.selectors, altSucceeds alt path = true :=
  matchAlts_true_iff path sel.selectors

theorem is_match_false_of_two_lengths {sel : Selector} (h : sel.hasNoRange = true)
    {a1 a2 : List Segment} (h1 : a1 ∈ sel.selectors) (h2 : a2 ∈ sel.selectors)
    (hne : a1.length ≠ a2.length) (path : List Content) :
    sel.is_match path = some false := by
  cases hm : sel.is_match path with
  | none => exact absurd (is_match_isSome h path) (by simp [hm])
  | some b =>
    cases b with
    | false => rfl
    | true =>
      have hall := (is_match_true_iff sel path).1 hm
      have e1 : a1.length = path.length := by
        have := hall a1 h1
        simp only [altSucceeds, Bool.and_eq_true, beq_iff_eq] at this
        exact this.1
      have e2 : a2.length = path.length := by
        have := hall a2 h2
        simp only [altSucceeds, Bool.and_eq_true, beq_iff_eq] at this
        exact this.1
      exact absurd (e1.trans e2.symm) hne

/-! ### Lemmas about the redactor -/

theorem redact_impl_of_none {sel : Selector} {path : List Content}
    (h : sel.is_match path = none) (value redaction : Content) :
    sel.redact_impl value redaction path = none := by
  cases value <;> simp [Selector.redact_impl, h]

theorem redact_impl_of_matched {sel : Selector} {path : List Content}
    (h : sel.is_match path = some true) (value redaction : Content) :
    sel.redact_impl value redaction path = some (redaction, path) := by
  cases value <;> simp [Selector.redact_impl, h]

theorem redactEntries_fst {sel : Selector} {redaction : Content} :
    ∀ {entries entries2 : List (Content × Content)} {path path2 : List Content},
      redactEntries sel redaction entries path = some (entries2, path2) →
      entries2.map Prod.fst = entries.map Prod.fst := by
  intro entries
  induction entries with
  | nil =>
    intro entries2 path path2 h
    simp [redactEntries] at h
    simp [h.1.symm]
  | cons kv rest ih =>
    intro entries2 path path2 h
    obtain ⟨key, value⟩ := kv
    rw [redactEntries] at h
    cases hc : sel.redact_impl value redaction (path ++ [key]) with
    | none => simp [hc] at h
    | some res =>
      obtain ⟨newValue, pathc⟩ := res
      simp only [hc] at h
      cases hr : redactEntries sel redaction rest pathc.dropLast with
      | none => simp [hr] at h
      | some res2 =>
        obtain ⟨rest2, path3⟩ := res2
        simp only [hr] at h
        simp only [Option.some.injEq, Prod.mk.injEq] at h
        obtain ⟨h1, -⟩ := h
        simp [← h1, ih hr]

theorem redactItems_length {sel : Selector} {redaction : Content} :
    ∀ {items items2 : List Content} {path path2 : List Content} {idx : Nat},
      redactItems sel redaction items path idx = some (items2, path2) →
      items2.length = items.length := by
  intro items
  induction items with
  | nil =>
    intro items2 path path2 idx h
    simp [redactItems] at h
    simp [h.1.symm]
  | cons value rest ih =>
    intro items2 path path2 idx h
    rw [redactItems] at h
    cases hc : sel.redact_impl value redaction (path ++ [Content.U64 idx]) with
    | none => simp [hc] at h
    | some res =>
      obtain ⟨newValue, pathc⟩ := res
      simp only [hc] at h
      cases hr : redactItems sel redaction rest pathc.dropLast (idx + 1) with
      | none => simp [hr] at h
      | some res2 =>
        obtain ⟨rest2, path3⟩ := res2
        simp only [hr] at h
        simp only [Option.some.injEq, Prod.mk.injEq] at h
        obtain ⟨h1, -⟩ := h
        simp [← h1, ih hr]

theorem redactFields_fst {sel : Selector} {redaction : Content} :
    ∀ {fields fields2 : List (Str × Content)} {path path2 : List Content},
      redactFields sel redaction fields path = some (fields2, path2) →
      fields2.map Prod.fst = fields.map Prod.fst := by
  intro fields
  induction fields with
  | nil =>
    intro fields2 path path2 h
    simp [redactFields] at h
    simp [h.1.symm]
  | cons kv rest ih =>
    intro fields2 path path2 h
    obtain ⟨key, value⟩ := kv
    rw [redactFields] at h
    cases hc : sel.redact_impl value redaction (path ++ [Content.String key]) with
    | none => simp [hc] at h
    | some res =>
      obtain ⟨newValue, pathc⟩ := res
      simp only [hc] at h
      cases hr : redactFields sel redaction rest pathc.dropLast with
      | none => simp [hr] at h
      | some res2 =>
        obtain ⟨rest2, path3⟩ := res2
        simp only [hr] at h
        simp only [Option.some.injEq, Prod.mk.injEq] at h
        obtain ⟨h1, -⟩ := h
        simp [← h1, ih hr]

/-! ### The combined inductive facts about the redactor: the path stack is
restored on return, the redactor is total for range-free selectors, and a
selector that matches no path leaves the value untouched. -/

theorem redact_impl_main (sel : Selector) (value redaction : Content) (path : List Content) :
    (∀ res, sel.redact_impl value redaction path = some res → res.2 = path) ∧
    (sel.hasNoRange = true → (sel.redact_impl value redaction path).isSome) ∧
    ((∀ p, sel.is_match p = some false) →
      sel.redact_impl value redaction path = some (value, path)) := by
  refine Selector.redact_impl.induct sel
    (fun value redaction path =>
      (∀ res, sel.redact_impl value redaction path = some res → res.2 = path) ∧
      (sel.hasNoRange = true → (sel.redact_impl value redaction path).isSome) ∧
      ((∀ p, sel.is_match p = some false) →
        sel.redact_impl value redaction path = some (value, path)))
    (fun redaction fields path =>
      (∀ res, redactFields sel redaction fields path = some res → res.2 = path) ∧
      (sel.hasNoRange = true → (redactFields sel redaction fields path).isSome) ∧
      ((∀ p, sel.is_match p = some false) →
        redactFields sel redaction fields path = some (fields, path)))
    (fun redaction items path idx =>
      (∀ res, redactItems sel redaction items path idx = some res → res.2 = path) ∧
      (sel.hasNoRange = true → (redactItems sel redaction items path idx).isSome) ∧
      ((∀ p, sel.is_match p = some false) →
        redactItems sel redaction items path idx = some (items, path)))
    (fun redaction entries path =>
      (∀ res, redactEntries sel redaction entries path = some res → res.2 = path) ∧
      (sel.hasNoRange = true → (redactEntries sel redaction entries path).isSome) ∧
      ((∀ p, sel.is_match p = some false) →
        redactEntries sel redaction entries path = some (entries, path)))
    ?_ ?_ ?_ ?_ ?_ ?_ ?_ ?_ ?_ ?_ ?_ ?_ ?_ ?_ ?_ ?_ ?_ ?_ ?_ ?_ ?_ ?_ ?_ ?_ ?_ ?_ ?_ ?_ ?_
    value redaction path
  -- case 1: is_match aborts
  · intro value redaction path h
    have hred := redact_impl_of_none h value redaction
    refine ⟨?_, ?_, ?_⟩
    · intro res hres; rw [hred] at hres; simp at hres
    · intro hnr; exact absurd (is_match_isSome hnr path) (by simp [h])
    · intro hf; exact absurd (hf path) (by simp [h])
  -- case 2: the path matches
  · intro value redaction path h
    have hred := redact_impl_of_matched h value redaction
    refine ⟨?_, ?_, ?_⟩
    · intro res hres; rw [hred] at hres; obtain rfl := Option.some.inj hres; rfl
    · intro _; simp [hred]
    · intro hf; exact absurd (hf path) (by simp [h])
  -- case 3: Map, entries abort
  · intro redaction path hm entries hE IH
    have hred : sel.redact_impl (Content.Map entries) redaction path = none := by
      simp [Selector.redact_impl.eq_1, hm, hE]
    refine ⟨?_, ?_, ?_⟩
    · intro res hres; rw [hred] at hres; simp at hres
    · intro hnr; exact absurd (IH.2.1 hnr) (by simp [hE])
    · intro hf; exact absurd (IH.2.2 hf) (by simp [hE])
  -- case 4: Map, entries succeed
  · intro redaction path hm entries entries2 path2 hE IH
    have hred : sel.redact_impl (Content.Map entries) redaction path =
        some (Content.Map entries2, path2) := by
      simp [Selector.redact_impl.eq_1, hm, hE]
    refine ⟨?_, ?_, ?_⟩
    · intro res hres; rw [hred] at hres; obtain rfl := Option.some.inj hres
      exact IH.1 (entries2, path2) hE
    · intro _; simp [hred]
    · intro hf
      have h2 := hE.symm.trans (IH.2.2 hf)
      simp only [Option.some.injEq, Prod.mk.injEq] at h2
      obtain ⟨rfl, rfl⟩ := h2
      exact hred
  -- case 5: Seq, items abort
  · intro redaction path hm items hE IH
    have hred : sel.redact_impl (Content.Seq items) redaction path = none := by
      simp [Selector.redact_impl.eq_2, hm, hE]
    refine ⟨?_, ?_, ?_⟩
    · intro res hres; rw [hred] at hres; simp at hres
    · intro hnr; exact absurd (IH.2.1 hnr) (by simp [hE])
    · intro hf; exact absurd (IH.2.2 hf) (by simp [hE])
  -- case 6: Seq, items succeed
  · intro redaction path hm items items2 path2 hE IH
    have hred : sel.redact_impl (Content.Seq items) redaction path =
        some (Content.Seq items2, path2) := by
      simp [Selector.redact_impl.eq_2, hm, hE]
    refine ⟨?_, ?_, ?_⟩
    · intro res hres; rw [hred] at hres; obtain rfl := Option.some.inj hres
      exact IH.1 (items2, path2) hE
    · intro _; simp [hred]
    · intro hf
      have h2 := hE.symm.trans (IH.2.2 hf)
      simp only [Option.some.injEq, Prod.mk.injEq] at h2
      obtain ⟨rfl, rfl⟩ := h2
      exact hred
  -- case 7: Tuple, items abort
  · intro redaction path hm items hE IH
    have hred : sel.redact_impl (Content.Tuple items) redaction path = none := by
      simp [Selector.redact_impl.eq_3, hm, hE]
    refine ⟨?_, ?_, ?_⟩
    · intro res hres; rw [hred] at hres; simp at hres
    · intro hnr; exact absurd (IH.2.1 hnr) (by simp [hE])
    · intro hf; exact absurd (IH.2.2 hf) (by simp [hE])
  -- case 8: Tuple, items succeed
  · intro redaction path hm items items2 path2 hE IH
    have hred : sel.redact_impl (Content.Tuple items) redaction path =
        some (Content.Tuple items2, path2) := by
      simp [Selector.redact_impl.eq_3, hm, hE]
    refine ⟨?_, ?_, ?_⟩
    · intro res hres; rw [hred] at hres; obtain rfl := Option.some.inj hres
      exact IH.1 (items2, path2) hE
    · intro _; simp [hred]
    · intro hf
      have h2 := hE.symm.trans (IH.2.2 hf)
      simp only [Option.some.injEq, Prod.mk.injEq] at h2
      obtain ⟨rfl, rfl⟩ := h2
      exact hred
  -- case 9: TupleStruct, items abort
  · intro redaction path hm name items hE IH
    have hred : sel.redact_impl (Content.TupleStruct name items) redaction path = none := by
      simp [Selector.redact_impl.eq_4, hm, hE]
    refine ⟨?_, ?_, ?_⟩
    · intro res hres; rw [hred] at hres; simp at hres
    · intro hnr; exact absurd (IH.2.1 hnr) (by simp [hE])
    · intro hf; exact absurd (IH.2.2 hf) (by simp [hE])
  -- case 10: TupleStruct, items succeed
  · intro redaction path hm name items items2 path2 hE IH
    have hred : sel.redact_impl (Content.TupleStruct name items) redaction path =
        some (Content.TupleStruct name items2, path2) := by
      simp [Selector.redact_impl.eq_4, hm, hE]
    refine ⟨?_, ?_, ?_⟩
    · intro res hres; rw [hred] at hres; obtain rfl := Option.some.inj hres
      exact IH.1 (items2, path2) hE
    · intro _; simp [hred]
    · intro hf
      have h2 := hE.symm.trans (IH.2.2 hf)
      simp only [Option.some.injEq, Prod.mk.injEq] at h2
      obtain ⟨rfl, rfl⟩ := h2
      exact hred
  -- case 11: TupleVariant, items abort
  · intro redaction path hm name variantIndex variant items hE IH
    have hred : sel.redact_impl (Content.TupleVariant name variantIndex variant items)
        redaction path = none := by
      simp [Selector.redact_impl.eq_5, hm, hE]
    refine ⟨?_, ?_, ?_⟩
    · intro res hres; rw [hred] at hres; simp at hres
    · intro hnr; exact absurd (IH.2.1 hnr) (by simp [hE])
    · intro hf; exact absurd (IH.2.2 hf) (by simp [hE])
  -- case 12: TupleVariant, items succeed
  · intro redaction path hm name variantIndex variant items items2 path2 hE IH
    have hred : sel.redact_impl (Content.TupleVariant name variantIndex variant items)
        redaction path = some (Content.TupleVariant name variantIndex variant items2, path2) := by
      simp [Selector.redact_impl.eq_5, hm, hE]
    refine ⟨?_, ?_, ?_⟩
    · intro res hres; rw [hred] at hres; obtain rfl := Option.some.inj hres
      exact IH.1 (items2, path2) hE
    · intro _; simp [hred]
    · intro hf
      have h2 := hE.symm.trans (IH.2.2 hf)
      simp only [Option.some.injEq, Prod.mk.injEq] at h2
      obtain ⟨rfl, rfl⟩ := h2
      exact hred
  -- case 13: Struct, fields abort
  · intro redaction path hm name fields hF IH
    have hred : sel.redact_impl (Content.Struct name fields) redaction path = none := by
      simp [Selector.redact_impl.eq_6, hm, hF]
    refine ⟨?_, ?_, ?_⟩
    · intro res hres; rw [hred] at hres; simp at hres
    · intro hnr; exact absurd (IH.2.1 hnr) (by simp [hF])
    · intro hf; exact absurd (IH.2.2 hf) (by simp [hF])
  -- case 14: Struct, fields succeed
  · intro redaction path hm name fields fields2 path2 hF IH
    have hred : sel.redact_impl (Content.Struct name fields) redaction path =
        some (Content.Struct name fields2, path2) := by
      simp [Selector.redact_impl.eq_6, hm, hF]
    refine ⟨?_, ?_, ?_⟩
    · intro res hres; rw [hred] at hres; obtain rfl := Option.some.inj hres
      exact IH.1 (fields2, path2) hF
    · intro _; simp [hred]
    · intro hf
      have h2 := hF.symm.trans (IH.2.2 hf)
      simp only [Option.some.injEq, Prod.mk.injEq] at h2
      obtain ⟨rfl, rfl⟩ := h2
      exact hred
  -- case 15: StructVariant, fields abort
  · intro redaction path hm name variantIndex variant fields hF IH
    have hred : sel.redact_impl (Content.StructVariant name variantIndex variant fields)
        redaction path = none := by
      simp [Selector.redact_impl.eq_7, hm, hF]
    refine ⟨?_, ?_, ?_⟩
    · intro res hres; rw [hred] at hres; simp at hres
    · intro hnr; exact absurd (IH.2.1 hnr) (by simp [hF])
    · intro hf; exact absurd (IH.2.2 hf) (by simp [hF])
  -- case 16: StructVariant, fields succeed
  · intro redaction path hm name variantIndex variant fields fields2 path2 hF IH
    have hred : sel.redact_impl (Content.StructVariant name variantIndex variant fields)
        redaction path = some (Content.StructVariant name variantIndex variant fields2, path2) := by
      simp [Selector.redact_impl.eq_7, hm, hF]
    refine ⟨?_, ?_, ?_⟩
    · intro res hres; rw [hred] at hres; obtain rfl := Option.some.inj hres
      exact IH.1 (fields2, path2) hF
    · intro _; simp [hred]
    · intro hf
      have h2 := hF.symm.trans (IH.2.2 hf)
      simp only [Option.some.injEq, Prod.mk.injEq] at h2
      obtain ⟨rfl, rfl⟩ := h2
      exact hred
  -- case 17: a scalar leaf
  · intro redaction path hm other h1 h2 h3 h4 h5 h6 h7
    have hred : sel.redact_impl other redaction path = some (other, path) := by
      rw [Selector.redact_impl.eq_8 sel other redaction path h1 h2 h3 h4 h5 h6 h7, hm]
    refine ⟨?_, ?_, ?_⟩
    · intro res hres; rw [hred] at hres; obtain rfl := Option.some.inj hres; rfl
    · intro _; simp [hred]
    · intro _; exact hred
  -- case 18: fields exhausted
  · intro redaction path
    have hred : redactFields sel redaction [] path = some ([], path) := by
      rw [redactFields]
    refine ⟨?_, ?_, ?_⟩
    · intro res hres; rw [hred] at hres; obtain rfl := Option.some.inj hres; rfl
    · intro _; simp [hred]
    · intro _; exact hred
  -- case 19: field child aborts
  · intro redaction key value rest path hc IH1
    have hred : redactFields sel redaction ((key, value) :: rest) path = none := by
      simp [redactFields, hc]
    refine ⟨?_, ?_, ?_⟩
    · intro res hres; rw [hred] at hres; simp at hres
    · intro hnr; exact absurd (IH1.2.1 hnr) (by simp [hc])
    · intro hf; exact absurd (IH1.2.2 hf) (by simp [hc])
  -- case 20: field child succeeds, remaining fields abort
  · intro redaction key value rest path newValue path2 hc hrest IH1 IH2
    have hred : redactFields sel redaction ((key, value) :: rest) path = none := by
      simp [redactFields, hc, hrest]
    refine ⟨?_, ?_, ?_⟩
    · intro res hres; rw [hred] at hres; simp at hres
    · intro hnr; exact absurd (IH2.2.1 hnr) (by simp [hrest])
    · intro hf; exact absurd (IH2.2.2 hf) (by simp [hrest])
  -- case 21: field child and remaining fields succeed
  · intro redaction key value rest path newValue path2 hc fields2 path3 hrest IH1 IH2
    have hred : redactFields sel redaction ((key, value) :: rest) path =
        some ((key, newValue) :: fields2, path3) := by
      simp [redactFields, hc, hrest]
    refine ⟨?_, ?_, ?_⟩
    · intro res hres; rw [hred] at hres; obtain rfl := Option.some.inj hres
      have e1 : path2 = path ++ [Content.String key] := IH1.1 (newValue, path2) hc
      have e2 : path3 = path2.dropLast := IH2.1 (fields2, path3) hrest
      simp [e2, e1]
    · intro _; simp [hred]
    · intro hf
      have e1 := hc.symm.trans (IH1.2.2 hf)
      simp only [Option.some.injEq, Prod.mk.injEq] at e1
      obtain ⟨rfl, rfl⟩ := e1
      have e2 := hrest.symm.trans (IH2.2.2 hf)
      simp only [Option.some.injEq, Prod.mk.injEq] at e2
      obtain ⟨rfl, rfl⟩ := e2
      simpa using hred
  -- case 22: items exhausted
  · intro redaction path idx
    have hred : redactItems sel redaction [] path idx = some ([], path) := by
      rw [redactItems]
    refine ⟨?_, ?_, ?_⟩
    · intro res hres; rw [hred] at hres; obtain rfl := Option.some.inj hres; rfl
    · intro _; simp [hred]
    · intro _; exact hred
  -- case 23: item child aborts
  · intro redaction value rest path idx hc IH1
    have hred : redactItems sel redaction (value :: rest) path idx = none := by
      simp [redactItems, hc]
    refine ⟨?_, ?_, ?_⟩
    · intro res hres; rw [hred] at hres; simp at hres
    · intro hnr; exact absurd (IH1.2.1 hnr) (by simp [hc])
    · intro hf; exact absurd (IH1.2.2 hf) (by simp [hc])
  -- case 24: item child succeeds, remaining items abort
  · intro redaction value rest path idx newValue path2 hc hrest IH1 IH2
    have hred : redactItems sel redaction (value :: rest) path idx = none := by
      simp [redactItems, hc, hrest]
    refine ⟨?_, ?_, ?_⟩
    · intro res hres; rw [hred] at hres; simp at hres
    · intro hnr; exact absurd (IH2.2.1 hnr) (by simp [hrest])
    · intro hf; exact absurd (IH2.2.2 hf) (by simp [hrest])
  -- case 25: item child and remaining items succeed
  · intro redaction value rest path idx newValue path2 hc items2 path3 hrest IH1 IH2
    have hred : redactItems sel redaction (value :: rest) path idx =
        some (newValue :: items2, path3) := by
      simp [redactItems, hc, hrest]
    refine ⟨?_, ?_, ?_⟩
    · intro res hres; rw [hred] at hres; obtain rfl := Option.some.inj hres
      have e1 : path2 = path ++ [Content.U64 idx] := IH1.1 (newValue, path2) hc
      have e2 : path3 = path2.dropLast := IH2.1 (items2, path3) hrest
      simp [e2, e1]
    · intro _; simp [hred]
    · intro hf
      have e1 := hc.symm.trans (IH1.2.2 hf)
      simp only [Option.some.injEq, Prod.mk.injEq] at e1
      obtain ⟨rfl, rfl⟩ := e1
      have e2 := hrest.symm.trans (IH2.2.2 hf)
      simp only [Option.some.injEq, Prod.mk.injEq] at e2
      obtain ⟨rfl, rfl⟩ := e2
      simpa using hred
  -- case 26: entries exhausted
  · intro redaction path
    have hred : redactEntries sel redaction [] path = some ([], path) := by
      rw [redactEntries]
    refine ⟨?_, ?_, ?_⟩
    · intro res hres; rw [hred] at hres; obtain rfl := Option.some.inj hres; rfl
    · intro _; simp [hred]
    · intro _; exact hred
  -- case 27: entry child aborts
  · intro redaction key value rest path hc IH1
    have hred : redactEntries sel redaction ((key, value) :: rest) path = none := by
      simp [redactEntries, hc]
    refine ⟨?_, ?_, ?_⟩
    · intro res hres; rw [hred] at hres; simp at hres
    · intro hnr; exact absurd (IH1.2.1 hnr) (by simp [hc])
    · intro hf; exact absurd (IH1.2.2 hf) (by simp [hc])
  -- case 28: entry child succeeds, remaining entries abort
  · intro redaction key value rest path newValue path2 hc hrest IH1 IH2
    have hred : redactEntries sel redaction ((key, value) :: rest) path = none := by
      simp [redactEntries, hc, hrest]
    refine ⟨?_, ?_, ?_⟩
    · intro res hres; rw [hred] at hres; simp at hres
    · intro hnr; exact absurd (IH2.2.1 hnr) (by simp [hrest])
    · intro hf; exact absurd (IH2.2.2 hf) (by simp [hrest])
  -- case 29: entry child and remaining entries succeed
  · intro redaction key value rest path newValue path2 hc entries2 path3 hrest IH1 IH2
    have hred : redactEntries sel redaction ((key, value) :: rest) path =
        some ((key, newValue) :: entries2, path3) := by
      simp [redactEntries, hc, hrest]
    refine ⟨?_, ?_, ?_⟩
    · intro res hres; rw [hred] at hres; obtain rfl := Option.some.inj hres
      have e1 : path2 = path ++ [key] := IH1.1 (newValue, path2) hc
      have e2 : path3 = path2.dropLast := IH2.1 (entries2, path3) hrest
      simp [e2, e1]
    · intro _; simp [hred]
    · intro hf
      have e1 := hc.symm.trans (IH1.2.2 hf)
      simp only [Option.some.injEq, Prod.mk.injEq] at e1
      obtain ⟨rfl, rfl⟩ := e1
      have e2 := hrest.symm.trans (IH2.2.2 hf)
      simp only [Option.some.injEq, Prod.mk.injEq] at e2
      obtain ⟨rfl, rfl⟩ := e2
      simpa using hred

/-! ### The claims -/

/-- C1: for every compiled selector and every path, is_match returns true
exactly when every stored alternative pattern succeeds against that same
path, where an alternative succeeds only when its length equals the path's
length and every position matches (an intersection over the alternatives,
not a union). -/
theorem C1_is_match_is_intersection (sel : Selector) (path : List Content) :
    sel.is_match path = some true ↔ ∀ alt ∈ sel.selectors, altSucceeds alt path = true :=
  is_match_true_iff sel path

/-- C2: a selector with zero alternative patterns matches every path, of
any length and content. -/
theorem C2_empty_selector_matches_everything (path : List Content) :
    Selector.is_match ⟨[]⟩ path = some true := rfl

/-- C3 counterexample: the quoted key with inner text a backslash-x b is
compiled to the key text axb, so the lone backslash before the non-quote
character x is dropped, not passed through as the claim states. -/
theorem C3_counterexample :
    subscriptStringKey "\"a\\xb\"" = Segment.Key "axb" ∧
    subscriptStringKey "\"a\\xb\"" ≠ Segment.Key "a\\xb" := by
  refine ⟨rfl, fun h => ?_⟩
  have h2 : ("axb" : Str) = "a\\xb" := by
    have h3 : subscriptStringKey "\"a\\xb\"" = Segment.Key "axb" := rfl
    rw [h3] at h
    injection h
  simp at h2

/-- C3 amended: the decode loop of a quoted key drops every backslash that
is scanned while the flag is down and keeps the following character
verbatim, whatever it is; so backslash+quote decodes to a quote,
backslash+backslash to one backslash, and a lone backslash before any
other character is dropped rather than passed through. -/
theorem C3_amended_every_escape_collapses :
    (∀ (c : Char) (cs : List Char),
      decodeEscapedChars ('\\' :: c :: cs) false = c :: decodeEscapedChars cs false) ∧
    subscriptStringKey "\"a\\\"b\"" = Segment.Key "a\"b" ∧
    subscriptStringKey "\"a\\\\b\"" = Segment.Key "a\\b" := by
  refine ⟨fun c cs => ?_, rfl, rfl⟩
  simp [decodeEscapedChars]

/-- C4 counterexample: a selector holding a Range segment does not always
abort: on the empty path the length test fails first and is_match returns
false normally, and redact on a scalar consults is_match only on the empty
path and likewise returns normally. -/
theorem C4_counterexample :
    Selector.is_match ⟨[[Segment.Range none none]]⟩ [] = some false ∧
    Selector.redact ⟨[[Segment.Range none none]]⟩ (Content.U64 0) Content.None =
      some (Content.U64 0) := by
  refine ⟨rfl, ?_⟩
  simp [Selector.redact, Selector.redact_impl, Selector.is_match, matchAlts]

/-- C4 amended: the abort happens exactly when the comparison loop reaches
a Range segment; in particular whenever the single stored alternative
begins with a Range segment and the path has the alternative's length,
is_match aborts instead of returning an answer. -/
theorem C4_range_reached_aborts (lo hi : Option Nat) (rest : List Segment)
    (path : List Content) (h : path.length = rest.length + 1) :
    Selector.is_match ⟨[Segment.Range lo hi :: rest]⟩ path = none := by
  cases path with
  | nil => simp at h
  | cons e t =>
    simp only [Selector.is_match, matchAlts]
    rw [if_neg (by simp_all)]
    simp [matchZip, segMatch]

/-- C4 witness: instantiation of the amended claim on the one-segment
range alternative and a one-element path. -/
theorem C4_witness :
    ([Content.None] : List Content).length = ([] : List Segment).length + 1 ∧
    Selector.is_match ⟨[[Segment.Range none none]]⟩ [Content.None] = none :=
  ⟨rfl, C4_range_reached_aborts none none [] [Content.None] rfl⟩

/-- C5: whenever the current path matches, redact_impl returns the
redaction value itself at that node (with the path stack untouched) and
does not descend into the inserted replacement, so structure inside the
replacement that would itself match is left untouched. -/
theorem C5_match_inserts_replacement (sel : Selector) (value redaction : Content)
    (path : List Content) (h : sel.is_match path = some true) :
    sel.redact_impl value redaction path = some (redaction, path) :=
  redact_impl_of_matched h value redaction

/-- C5 witness: at the matching path the replacement map that itself holds
a field named secret is inserted verbatim, its inner field untouched. -/
theorem C5_witness :
    Selector.is_match ⟨[[Segment.Key "secret"]]⟩ [Content.String "secret"] = some true ∧
    Selector.redact_impl ⟨[[Segment.Key "secret"]]⟩ (Content.String "x")
      (Content.Map [(Content.String "secret", Content.String "y")])
      [Content.String "secret"] =
      some (Content.Map [(Content.String "secret", Content.String "y")],
        [Content.String "secret"]) :=
  ⟨rfl, C5_match_inserts_replacement ⟨[[Segment.Key "secret"]]⟩ (Content.String "x")
    (Content.Map [(Content.String "secret", Content.String "y")])
    [Content.String "secret"] rfl⟩

/-- C6: a container node that is not itself replaced keeps its kind, its
name and variant metadata, its arity and its child enumeration order
(captured by headShape, which records all of these), and a scalar leaf
that is not replaced is returned unchanged. -/
theorem C6_shape_preserved (sel : Selector) (value redaction : Content)
    (path : List Content) (value2 : Content) (path2 : List Content)
    (hm : sel.is_match path = some false)
    (hred : sel.redact_impl value redaction path = some (value2, path2)) :
    value2.headShape = value.headShape ∧ (value.headShape = HeadShape.leaf → value2 = value) := by
  cases value with
  | Map entries =>
    cases hE : redactEntries sel redaction entries path with
    | none => simp [Selector.redact_impl.eq_1, hm, hE] at hred
    | some res =>
      obtain ⟨entries2, p2⟩ := res
      simp only [Selector.redact_impl.eq_1, hm, hE, Option.some.injEq, Prod.mk.injEq] at hred
      obtain ⟨rfl, rfl⟩ := hred
      refine ⟨?_, fun hleaf => by simp [Content.headShape] at hleaf⟩
      simp [Content.headShape, redactEntries_fst hE]
  | Seq items =>
    cases hE : redactItems sel redaction items path 0 with
    | none => simp [Selector.redact_impl.eq_2, hm, hE] at hred
    | some res =>
      obtain ⟨items2, p2⟩ := res
      simp only [Selector.redact_impl.eq_2, hm, hE, Option.some.injEq, Prod.mk.injEq] at hred
      obtain ⟨rfl, rfl⟩ := hred
      refine ⟨?_, fun hleaf => by simp [Content.headShape] at hleaf⟩
      simp [Content.headShape, redactItems_length hE]
  | Tuple items =>
    cases hE : redactItems sel redaction items path 0 with
    | none => simp [Selector.redact_impl.eq_3, hm, hE] at hred
    | some res =>
      obtain ⟨items2, p2⟩ := res
      simp only [Selector.redact_impl.eq_3, hm, hE, Option.some.injEq, Prod.mk.injEq] at hred
      obtain ⟨rfl, rfl⟩ := hred
      refine ⟨?_, fun hleaf => by simp [Content.headShape] at hleaf⟩
      simp [Content.headShape, redactItems_length hE]
  | TupleStruct name items =>
    cases hE : redactItems sel redaction items path 0 with
    | none => simp [Selector.redact_impl.eq_4, hm, hE] at hred
    | some res =>
      obtain ⟨items2, p2⟩ := res
      simp only [Selector.redact_impl.eq_4, hm, hE, Option.some.injEq, Prod.mk.injEq] at hred
      obtain ⟨rfl, rfl⟩ := hred
      refine ⟨?_, fun hleaf => by simp [Content.headShape] at hleaf⟩
      simp [Content.headShape, redactItems_length hE]
  | TupleVariant name variantIndex variant items =>
    cases hE : redactItems sel redaction items path 0 with
    | none => simp [Selector.redact_impl.eq_5, hm, hE] at hred
    | some res =>
      obtain ⟨items2, p2⟩ := res
      simp only [Selector.redact_impl.eq_5, hm, hE, Option.some.injEq, Prod.mk.injEq] at hred
      obtain ⟨rfl, rfl⟩ := hred
      refine ⟨?_, fun hleaf => by simp [Content.headShape] at hleaf⟩
      simp [Content.headShape, redactItems_length hE]
  | Struct name fields =>
    cases hE : redactFields sel redaction fields path with
    | none => simp [Selector.redact_impl.eq_6, hm, hE] at hred
    | some res =>
      obtain ⟨fields2, p2⟩ := res
      simp only [Selector.redact_impl.eq_6, hm, hE, Option.some.injEq, Prod.mk.injEq] at hred
      obtain ⟨rfl, rfl⟩ := hred
      refine ⟨?_, fun hleaf => by simp [Content.headShape] at hleaf⟩
      simp [Content.headShape, redactFields_fst hE]
  | StructVariant name variantIndex variant fields =>
    cases hE : redactFields sel redaction fields path with
    | none => simp [Selector.redact_impl.eq_7, hm, hE] at hred
    | some res =>
      obtain ⟨fields2, p2⟩ := res
      simp only [Selector.redact_impl.eq_7, hm, hE, Option.some.injEq, Prod.mk.injEq] at hred
      obtain ⟨rfl, rfl⟩ := hred
      refine ⟨?_, fun hleaf => by simp [Content.headShape] at hleaf⟩
      simp [Content.headShape, redactFields_fst hE]
  | Bool b =>
    simp only [Selector.redact_impl, hm] at hred
    simp only [Option.some.injEq, Prod.mk.injEq] at hred
    obtain ⟨rfl, rfl⟩ := hred
    exact ⟨rfl, fun _ => rfl⟩
  | U64 n =>
    simp only [Selector.redact_impl, hm] at hred
    simp only [Option.some.injEq, Prod.mk.injEq] at hred
    obtain ⟨rfl, rfl⟩ := hred
    exact ⟨rfl, fun _ => rfl⟩
  | String s =>
    simp only [Selector.redact_impl, hm] at hred
    simp only [Option.some.injEq, Prod.mk.injEq] at hred
    obtain ⟨rfl, rfl⟩ := hred
    exact ⟨rfl, fun _ => rfl⟩
  | None =>
    simp only [Selector.redact_impl, hm] at hred
    simp only [Option.some.injEq, Prod.mk.injEq] at hred
    obtain ⟨rfl, rfl⟩ := hred
    exact ⟨rfl, fun _ => rfl⟩

/-- C6 witness: redacting the key a of a two-entry map keeps the map kind,
both keys and the enumeration order. -/
theorem C6_witness :
    (Content.Map [(Content.String "a", Content.String "x"),
      (Content.String "b", Content.U64 2)]).headShape =
      (Content.Map [(Content.String "a", Content.U64 1),
        (Content.String "b", Content.U64 2)]).headShape ∧
    ((Content.Map [(Content.String "a", Content.U64 1),
      (Content.String "b", Content.U64 2)]).headShape = HeadShape.leaf →
      Content.Map [(Content.String "a", Content.String "x"),
        (Content.String "b", Content.U64 2)] =
        Content.Map [(Content.String "a", Content.U64 1),
          (Content.String "b", Content.U64 2)]) :=
  C6_shape_preserved ⟨[[Segment.Key "a"]]⟩
    (Content.Map [(Content.String "a", Content.U64 1), (Content.String "b", Content.U64 2)])
    (Content.String "x") []
    (Content.Map [(Content.String "a", Content.String "x"), (Content.String "b", Content.U64 2)])
    [] rfl
    (by simp [Selector.redact_impl, redactEntries, Selector.is_match, matchAlts, matchZip,
      segMatch, Content.as_str])

/-- C7: for a syntactically valid selector with no Range segment in any
alternative, is_match and redact are total: they return normally on every
well-formed value, path and redaction. -/
theorem C7_total_without_ranges (sel : Selector) (h : sel.hasNoRange = true) :
    (∀ path, (sel.is_match path).isSome) ∧
    (∀ value redaction path, (sel.redact_impl value redaction path).isSome) ∧
    (∀ value redaction, (sel.redact value redaction).isSome) := by
  refine ⟨is_match_isSome h, fun v r p => (redact_impl_main sel v r p).2.1 h, fun v r => ?_⟩
  have hs := (redact_impl_main sel v r []).2.1 h
  cases hx : sel.redact_impl v r [] with
  | none => rw [hx] at hs; simp at hs
  | some res => simp [Selector.redact, hx]

/-- C7 witness: instantiation on a range-free one-key selector. -/
theorem C7_witness :
    Selector.hasNoRange ⟨[[Segment.Key "a"]]⟩ = true ∧
    (Selector.redact ⟨[[Segment.Key "a"]]⟩ (Content.U64 3) Content.None).isSome :=
  ⟨rfl, (C7_total_without_ranges ⟨[[Segment.Key "a"]]⟩ rfl).2.2 (Content.U64 3) Content.None⟩

/-- C8: the selector text .foo compiles to the single pattern Key foo; it
matches a one-element path exactly when the element's text view is foo, so
it accepts the text foo, rejects the text Foo (case-sensitive, no
normalization), and rejects every path of length other than one. -/
theorem C8_dot_foo_matching :
    dotFooSelector.selectors = [[Segment.Key "foo"]] ∧
    (∀ e : Content, dotFooSelector.is_match [e] = some (e.as_str == some "foo")) ∧
    dotFooSelector.is_match [Content.String "foo"] = some true ∧
    dotFooSelector.is_match [Content.String "Foo"] = some false ∧
    (∀ path : List Content, path.length ≠ 1 → dotFooSelector.is_match path = some false) := by
  have hd : dotFooSelector = ⟨[[Segment.Key "foo"]]⟩ := rfl
  refine ⟨rfl, fun e => ?_, rfl, rfl, fun path hlen => ?_⟩
  · rw [hd]
    cases hb : e.as_str == some "foo" <;>
      simp [Selector.is_match, matchAlts, matchZip, segMatch, hb]
  · rw [hd]
    cases path with
    | nil => rfl
    | cons a t =>
      cases t with
      | nil => exact absurd rfl hlen
      | cons b t2 =>
        have hne2 : ([Segment.Key "foo"] : List Segment).length ≠ (a :: b :: t2).length := by
          simp only [List.length_cons, List.length_nil]
          omega
        simp only [Selector.is_match, matchAlts]
        rw [if_pos hne2]

/-- C8 witness: a two-element path is rejected. -/
theorem C8_witness :
    dotFooSelector.is_match [Content.U64 0, Content.U64 1] = some false :=
  C8_dot_foo_matching.2.2.2.2 [Content.U64 0, Content.U64 1] (by decide)

/-- C9: the recursive worker leaves the path stack exactly as it found it:
whenever redact_impl returns normally, the returned path state equals the
path passed in (so a top-level redact call, which starts from the empty
path, ends with the empty path). -/
theorem C9_path_stack_restored (sel : Selector) (value redaction : Content)
    (path : List Content) (value2 : Content) (path2 : List Content)
    (h : sel.redact_impl value redaction path = some (value2, path2)) :
    path2 = path :=
  (redact_impl_main sel value redaction path).1 (value2, path2) h

/-- C9 witness: a worker call entered with a one-element path stack
descends into the map child, rewrites it, and returns the same
one-element path stack. -/
theorem C9_witness :
    Selector.redact_impl ⟨[[Segment.Key "p", Segment.Key "a"]]⟩
      (Content.Map [(Content.String "a", Content.U64 1)]) Content.None
      [Content.String "p"] =
      some (Content.Map [(Content.String "a", Content.None)], [Content.String "p"]) ∧
    ([Content.String "p"] : List Content) = [Content.String "p"] :=
  ⟨by simp [Selector.redact_impl, redactEntries, Selector.is_match, matchAlts, matchZip,
      segMatch, Content.as_str],
   C9_path_stack_restored ⟨[[Segment.Key "p", Segment.Key "a"]]⟩
    (Content.Map [(Content.String "a", Content.U64 1)]) Content.None
    [Content.String "p"]
    (Content.Map [(Content.String "a", Content.None)]) [Content.String "p"]
    (by simp [Selector.redact_impl, redactEntries, Selector.is_match, matchAlts, matchZip,
      segMatch, Content.as_str])⟩

/-- C10: a range-free selector holding two alternatives of different
lengths matches no path at all, and redact therefore returns every value
unchanged. -/
theorem C10_mixed_lengths_match_nothing (sel : Selector) (h : sel.hasNoRange = true)
    (a1 a2 : List Segment) (h1 : a1 ∈ sel.selectors) (h2 : a2 ∈ sel.selectors)
    (hne : a1.length ≠ a2.length) :
    (∀ path, sel.is_match path = some false) ∧
    (∀ value redaction, sel.redact value redaction = some value) := by
  have hfalse : ∀ path, sel.is_match path = some false :=
    fun path => is_match_false_of_two_lengths h h1 h2 hne path
  refine ⟨hfalse, fun value redaction => ?_⟩
  have hid := (redact_impl_main sel value redaction []).2.2 hfalse
  simp [Selector.redact, hid]

/-- C10 witness: instantiation on a selector with a length-one and a
length-zero alternative. -/
theorem C10_witness :
    Selector.hasNoRange ⟨[[Segment.Key "a"], []]⟩ = true ∧
    [Segment.Key "a"] ∈ (⟨[[Segment.Key "a"], []]⟩ : Selector).selectors ∧
    ([] : List Segment) ∈ (⟨[[Segment.Key "a"], []]⟩ : Selector).selectors ∧
    ([Segment.Key "a"] : List Segment).length ≠ ([] : List Segment).length ∧
    Selector.is_match ⟨[[Segment.Key "a"], []]⟩ [Content.None] = some false ∧
    Selector.redact ⟨[[Segment.Key "a"], []]⟩ (Content.U64 7) Content.None =
      some (Content.U64 7) := by
  have main := C10_mixed_lengths_match_nothing ⟨[[Segment.Key "a"], []]⟩ rfl
    [Segment.Key "a"] [] (List.mem_cons_self _ _)
    (List.mem_cons_of_mem _ (List.mem_cons_self _ _)) (by decide)
  exact ⟨rfl, List.mem_cons_self _ _,
    List.mem_cons_of_mem _ (List.mem_cons_self _ _), by decide,
    main.1 [Content.None], main.2 (Content.U64 7) Content.None⟩
